import Mathlib

/-
Verification of the Environment / record-proxy subsystem of the odoorpc
client library (files `odoorpc/env.py` and `odoorpc/service/report.py`).

The embedding is shallow: Python dictionaries become association lists
(insertion-ordered, with key-replacing assignment, matching `dict`
semantics), the set of records is a heap `Nat -> RecordData` indexed by
record id, the weak dirty set becomes a duplicate-free list of record
ids, and remote procedure calls are recorded in an explicit trace while
their success or failure is driven by an oracle `fails : Nat -> Bool`.
Exceptions are modelled by stopping the iteration and returning the
state reached so far together with an error flag, exactly as a raised
Python exception leaves the mutated objects behind.
-/

namespace Odoorpc

/-- Lookup in an association list, first occurrence wins
(Python `d[k]` / `k in d`). -/
def alookup {α β : Type} [DecidableEq α] : List (α × β) → α → Option β
  | [], _ => none
  | (k', v) :: t, k => if k' = k then some v else alookup t k

/-- Assignment `d[k] = v` on a Python dict: replace in place if the key
exists (keeping insertion order), append otherwise. -/
def aset {α β : Type} [DecidableEq α] : List (α × β) → α → β → List (α × β)
  | [], k, v => [(k, v)]
  | (k', w) :: t, k, v =>
      if k' = k then (k, v) :: t else (k', w) :: aset t k v

/-- `d.pop(k)`'s effect on the dict: remove the key. -/
def aerase {α β : Type} [DecidableEq α] : List (α × β) → α → List (α × β)
  | [], _ => []
  | (k', w) :: t, k => if k' = k then aerase t k else (k', w) :: aerase t k

/-- Inner mapping of `_values` / `_values_to_write`: record id to value.
Field values are modelled as natural numbers (their concrete type is
irrelevant to the properties under study). -/
abbrev Inner := List (Nat × Nat)

/-- `_values` / `_values_to_write`: field name to inner id-keyed mapping. -/
abbrev VMap := List (String × Inner)

/-- Two-level lookup: `mapping[field][rid]`, with a missing field treated
as an empty inner mapping. -/
def lookup2 (w : VMap) (f : String) (j : Nat) : Option Nat :=
  alookup ((alookup w f).getD []) j

/-- One record's object state: `_values` (authoritative cache) and
`_values_to_write` (staged values), both keyed by field then by id
(`odoorpc/env.py` lines 122-130 access them exactly this way). -/
structure RecordData where
  vals : VMap
  toW : VMap
  deriving DecidableEq

/-- Modelled from the spec: the field descriptor operation
`store(record, value)` lives in `odoorpc/service/model.py` /
`fields.py`, which are not part of the sources under study.  Per the
spec it "reconciles the staged value into the record's authoritative
cached value", i.e. `_values[field][record.id] = value` for the scalar
kinds modelled here. -/
def store (rid : Nat) (valsC : VMap) (f : String) (v : Nat) : VMap :=
  aset valsC f (aset ((alookup valsC f).getD []) rid v)

/-- The inner loop of `Environment.commit` (env.py lines 121-130): walk
`record._values_to_write` in insertion order; for each field whose inner
mapping holds a value under the record's own id, pop that value,
accumulate it into the `values` payload, and `store` it into `_values`.
Returns the new `_values`, the new `_values_to_write` and the
accumulated payload, in iteration order. -/
def commitFields (rid : Nat) (valsC : VMap) :
    VMap → VMap × VMap × List (String × Nat)
  | [] => (valsC, [], [])
  | (f, m) :: rest =>
      match alookup m rid with
      | some v =>
          let out := commitFields rid (store rid valsC f v) rest
          (out.1, (f, aerase m rid) :: out.2.1, (f, v) :: out.2.2)
      | none =>
          let out := commitFields rid valsC rest
          (out.1, (f, m) :: out.2.1, out.2.2)

/-- Effect of the per-record part of `commit` on one record object,
together with the payload passed to `record.write`. -/
def recCommit (i : Nat) (r : RecordData) :
    RecordData × List (String × Nat) :=
  let out := commitFields i r.vals r.toW
  (⟨out.1, out.2.1⟩, out.2.2)

/-- Heap of record objects, keyed by record id. -/
def setR (h : Nat → RecordData) (i : Nat) (r : RecordData) :
    Nat → RecordData :=
  fun j => if j = i then r else h j

/-- State of an `Environment` as far as dirty tracking is concerned:
the record heap and the dirty set (`self._dirty`), the latter as a
duplicate-free list of record ids. -/
structure Env where
  heap : Nat → RecordData
  dirty : List Nat

/-- Result of running `commit`: the state of the world when the call
returns or when the exception of a failed `record.write` escapes, plus
the trace of `write` calls issued and an error flag. -/
structure CommitOut where
  heap : Nat → RecordData
  dirty : List Nat
  calls : List (Nat × List (String × Nat))
  err : Bool

/-- The loop of `Environment.commit` (env.py lines 120-132): iterate
over a snapshot `l` of the dirty set; per record pop-and-store the
staged own-id values, issue `record.write(values)` (traced), and on
success remove the record from the live dirty set `d`.  A failing write
raises: the loop stops with `err := true`, the mutations made so far
kept. -/
def commitGo (fails : Nat → Bool) :
    List Nat → (Nat → RecordData) → List Nat →
    List (Nat × List (String × Nat)) → CommitOut
  | [], h, d, tr => ⟨h, d, tr, false⟩
  | i :: rest, h, d, tr =>
      let out := recCommit i (h i)
      let h' := setR h i out.1
      let tr' := tr ++ [(i, out.2)]
      if fails i then ⟨h', d, tr', true⟩
      else commitGo fails rest h' (d.filter (fun x => decide (x ≠ i))) tr'

/-- `Environment.commit` (env.py lines 89-132): iterate on a copy
(`set(self.dirty)`) of the dirty set while removing records from the
original one. -/
def commit (fails : Nat → Bool) (e : Env) : CommitOut :=
  commitGo fails e.dirty e.heap e.dirty []

/-- `Environment.invalidate` (env.py lines 134-136): `self.dirty.clear()`
and nothing else; the returned list is the (empty) trace of write calls
it issues. -/
def invalidate (e : Env) : Env × List (Nat × List (String × Nat)) :=
  ({ e with dirty := [] }, [])

/-- Modelled from the spec: the field descriptor operation
`write(record, value)` and the dirty-set bookkeeping of a field
assignment live in `odoorpc/service/model.py` / `fields.py`, which are
not part of the sources under study.  Per the spec, `write` "validates
and stages the value into the record's pending-writes buffer, never
calling the transport", and a field assignment adds the record to the
Environment's dirty set. -/
def stage (e : Env) (i : Nat) (f : String) (v : Nat) : Env :=
  let r := e.heap i
  { heap := setR e.heap i
      { r with toW := aset r.toW f (aset ((alookup r.toW f).getD []) i v) },
    dirty := if i ∈ e.dirty then e.dirty else e.dirty ++ [i] }

/-- The staged own-id values of a pending-writes buffer, in iteration
order: the `values` payload `commit` builds for a record. -/
def ownVals (rid : Nat) (ws : VMap) : List (String × Nat) :=
  ws.filterMap (fun fv => (alookup fv.2 rid).map (fun v => (fv.1, v)))

/-! ### Association-list lemmas -/

theorem alookup_aset_self {α β : Type} [DecidableEq α]
    (l : List (α × β)) (k : α) (v : β) : alookup (aset l k v) k = some v := by
  induction l with
  | nil => simp [aset, alookup]
  | cons p t ih =>
      by_cases h : p.1 = k
      · simp [aset, h, alookup]
      · simp [aset, h, alookup, ih]

theorem alookup_aset_ne {α β : Type} [DecidableEq α]
    (l : List (α × β)) (k k' : α) (v : β) (h : k' ≠ k) :
    alookup (aset l k v) k' = alookup l k' := by
  have hk : ¬ k = k' := fun h' => h h'.symm
  induction l with
  | nil => simp [aset, alookup, hk]
  | cons p t ih =>
      by_cases hp : p.1 = k
      · have hp' : ¬ p.1 = k' := by rw [hp]; exact hk
        simp [aset, hp, alookup, hk, hp']
      · simp only [aset, if_neg hp, alookup]
        by_cases hp' : p.1 = k'
        · simp [hp']
        · simp [hp', ih]

theorem alookup_aerase_ne {α β : Type} [DecidableEq α]
    (l : List (α × β)) (k j : α) (h : j ≠ k) :
    alookup (aerase l k) j = alookup l j := by
  induction l with
  | nil => rfl
  | cons p t ih =>
      by_cases hp : p.1 = k
      · have hpj : ¬ p.1 = j := fun hj => h (by rw [← hj, hp])
        rw [show aerase (p :: t) k = aerase t k by
          cases p; simp only [aerase]; simp_all]
        rw [ih]
        simp [alookup, hpj]
      · rw [show aerase (p :: t) k = p :: aerase t k by
          cases p; simp only [aerase]; simp_all]
        by_cases hj : p.1 = j
        · simp [alookup, hj]
        · simp [alookup, hj, ih]

theorem alookup_aerase_self {α β : Type} [DecidableEq α]
    (l : List (α × β)) (k : α) : alookup (aerase l k) k = none := by
  induction l with
  | nil => rfl
  | cons p t ih =>
      by_cases hp : p.1 = k
      · rw [show aerase (p :: t) k = aerase t k by
          cases p; simp only [aerase]; simp_all]
        exact ih
      · rw [show aerase (p :: t) k = p :: aerase t k by
          cases p; simp only [aerase]; simp_all]
        simp [alookup, hp, ih]

theorem alookup_mem {α β : Type} [DecidableEq α]
    (l : List (α × β)) (k : α) (v : β) (h : alookup l k = some v) :
    (k, v) ∈ l := by
  induction l with
  | nil => simp [alookup] at h
  | cons p t ih =>
      by_cases hp : p.1 = k
      · simp only [alookup, if_pos hp] at h
        have hpv : p = (k, v) := by
          cases p with
          | mk a b =>
              simp only at hp
              simp only [Option.some.injEq] at h
              simp [hp, h]
        rw [hpv] at *
        exact List.mem_cons_self _ _
      · simp [alookup, hp] at h
        exact List.mem_cons_of_mem _ (ih h)

theorem alookup_append_none {α β : Type} [DecidableEq α]
    (l l2 : List (α × β)) (k : α) (h : alookup l k = none) :
    alookup (l ++ l2) k = alookup l2 k := by
  induction l with
  | nil => simp
  | cons p t ih =>
      by_cases hp : p.1 = k
      · simp [alookup, hp] at h
      · simp [alookup, hp] at h ⊢
        exact ih h

/-! ### Lemmas about the per-record commit loop -/

theorem commitFields_calls (rid : Nat) (vc : VMap) (ws : VMap) :
    (commitFields rid vc ws).2.2 = ownVals rid ws := by
  induction ws generalizing vc with
  | nil => rfl
  | cons p rest ih =>
      cases p with
      | mk f m =>
          simp only [commitFields, ownVals, List.filterMap_cons]
          cases hm : alookup m rid with
          | none => simpa [hm, ownVals] using ih vc
          | some v => simpa [hm, ownVals] using ih (store rid vc f v)

theorem commitFields_pops (rid : Nat) (vc : VMap) (ws : VMap) (f : String) :
    lookup2 (commitFields rid vc ws).2.1 f rid = none := by
  induction ws generalizing vc with
  | nil => rfl
  | cons p rest ih =>
      cases p with
      | mk f0 m =>
          simp only [commitFields]
          cases hm : alookup m rid with
          | none =>
              by_cases hf : f0 = f
              · simpa [lookup2, alookup, hf] using hm
              · simpa [lookup2, alookup, hf] using ih vc
          | some v =>
              by_cases hf : f0 = f
              · simpa [lookup2, alookup, hf] using alookup_aerase_self m rid
              · simpa [lookup2, alookup, hf] using ih (store rid vc f0 v)

theorem commitFields_frame (rid : Nat) (vc : VMap) (ws : VMap) (f : String)
    (j : Nat) (h : j ≠ rid) :
    lookup2 (commitFields rid vc ws).2.1 f j = lookup2 ws f j := by
  induction ws generalizing vc with
  | nil => rfl
  | cons p rest ih =>
      cases p with
      | mk f0 m =>
          simp only [commitFields]
          cases hm : alookup m rid with
          | none =>
              by_cases hf : f0 = f
              · simp [lookup2, alookup, hf]
              · simpa [lookup2, alookup, hf] using ih vc
          | some v =>
              by_cases hf : f0 = f
              · simp [lookup2, alookup, hf]
                exact alookup_aerase_ne m rid j h
              · simpa [lookup2, alookup, hf] using ih (store rid vc f0 v)

theorem commitFields_vals (rid : Nat) (vc : VMap) (ws : VMap) :
    (commitFields rid vc ws).1 =
      (ownVals rid ws).foldl (fun a p => store rid a p.1 p.2) vc := by
  induction ws generalizing vc with
  | nil => rfl
  | cons p rest ih =>
      cases p with
      | mk f m =>
          simp only [commitFields, ownVals, List.filterMap_cons]
          cases hm : alookup m rid with
          | none => simpa [hm, ownVals] using ih vc
          | some v => simpa [hm, ownVals] using ih (store rid vc f v)

theorem lookup2_store_self (rid : Nat) (vc : VMap) (f : String) (v : Nat) :
    lookup2 (store rid vc f v) f rid = some v := by
  unfold lookup2 store
  rw [alookup_aset_self]
  simp [alookup_aset_self]

theorem lookup2_store_ne_field (rid : Nat) (vc : VMap) (f f' : String)
    (v : Nat) (j : Nat) (h : f' ≠ f) :
    lookup2 (store rid vc f v) f' j = lookup2 vc f' j := by
  unfold lookup2 store
  rw [alookup_aset_ne _ _ _ _ h]

theorem lookup2_storeFold_not_mem (rid : Nat) (vc : VMap) (j : Nat)
    (ps : List (String × Nat)) (f : String) (h : ¬ f ∈ ps.map Prod.fst) :
    lookup2 (ps.foldl (fun a p => store rid a p.1 p.2) vc) f j =
      lookup2 vc f j := by
  induction ps generalizing vc with
  | nil => rfl
  | cons p t ih =>
      simp only [List.map_cons, List.mem_cons] at h
      push_neg at h
      simp only [List.foldl_cons]
      rw [ih _ h.2, lookup2_store_ne_field _ _ _ _ _ _ h.1]

theorem lookup2_storeFold_mem (rid : Nat) (vc : VMap)
    (ps : List (String × Nat)) (f : String) (v : Nat)
    (hnd : (ps.map Prod.fst).Nodup) (hmem : (f, v) ∈ ps) :
    lookup2 (ps.foldl (fun a p => store rid a p.1 p.2) vc) f rid = some v := by
  induction ps generalizing vc with
  | nil => simp at hmem
  | cons p t ih =>
      simp only [List.map_cons, List.nodup_cons] at hnd
      simp only [List.foldl_cons]
      rcases List.mem_cons.mp hmem with heq | hmemt
      · have hp1 : p.1 = f := by rw [← heq]
        have hp2 : p.2 = v := by rw [← heq]
        have hf : ¬ f ∈ t.map Prod.fst := by rw [← hp1]; exact hnd.1
        rw [lookup2_storeFold_not_mem _ _ _ _ _ hf, hp1, hp2,
          lookup2_store_self]
      · exact ih _ hnd.2 hmemt

/-! ### Lemmas about `ownVals` -/

theorem ownVals_keys_sublist (rid : Nat) (ws : VMap) :
    ((ownVals rid ws).map Prod.fst).Sublist (ws.map Prod.fst) := by
  induction ws with
  | nil => simp [ownVals]
  | cons p rest ih =>
      simp only [ownVals, List.filterMap_cons, List.map_cons]
      cases hm : alookup p.2 rid with
      | none => exact (ih).cons p.1
      | some v => simpa [ownVals] using (ih).cons₂ p.1

theorem ownVals_ne_nil (rid : Nat) (ws : VMap) (f : String) (m : Inner)
    (v : Nat) (hm : (f, m) ∈ ws) (hv : alookup m rid = some v) :
    ownVals rid ws ≠ [] := by
  induction ws with
  | nil => simp at hm
  | cons p rest ih =>
      rcases List.mem_cons.mp hm with heq | hmem
      · rw [← heq]
        simp [ownVals, List.filterMap_cons, hv]
      · simp only [ownVals, List.filterMap_cons]
        cases hmp : alookup p.2 rid with
        | none => simpa [ownVals] using ih hmem
        | some w => simp

/-! ### Lemmas about the commit loop over the dirty set -/

theorem recCommit_calls (i : Nat) (r : RecordData) :
    (recCommit i r).2 = ownVals i r.toW :=
  commitFields_calls i r.vals r.toW

theorem commitGo_cons (fails : Nat → Bool) (i : Nat) (rest : List Nat)
    (h : Nat → RecordData) (d : List Nat)
    (tr : List (Nat × List (String × Nat))) :
    commitGo fails (i :: rest) h d tr =
      if fails i = true
      then ⟨setR h i (recCommit i (h i)).1, d,
        tr ++ [(i, (recCommit i (h i)).2)], true⟩
      else commitGo fails rest (setR h i (recCommit i (h i)).1)
        (d.filter (fun x => decide (x ≠ i)))
        (tr ++ [(i, (recCommit i (h i)).2)]) :=
  rfl

theorem commitGo_err_ok (fails : Nat → Bool) (l : List Nat)
    (h : Nat → RecordData) (d : List Nat)
    (tr : List (Nat × List (String × Nat)))
    (hok : ∀ j ∈ l, fails j = false) :
    (commitGo fails l h d tr).err = false := by
  induction l generalizing h d tr with
  | nil => rfl
  | cons i rest ih =>
      rw [commitGo_cons, if_neg (by simp [hok i (List.mem_cons_self i rest)])]
      exact ih _ _ _ (fun j hj => hok j (List.mem_cons_of_mem i hj))

theorem commitGo_dirty_ok (fails : Nat → Bool) (l : List Nat)
    (h : Nat → RecordData) (d : List Nat)
    (tr : List (Nat × List (String × Nat)))
    (hok : ∀ j ∈ l, fails j = false) :
    (commitGo fails l h d tr).dirty =
      d.filter (fun x => decide (¬ x ∈ l)) := by
  induction l generalizing h d tr with
  | nil => simp [commitGo]
  | cons i rest ih =>
      rw [commitGo_cons, if_neg (by simp [hok i (List.mem_cons_self i rest)])]
      rw [ih _ _ _ (fun j hj => hok j (List.mem_cons_of_mem i hj))]
      rw [List.filter_filter]
      apply List.filter_congr
      intro x _
      by_cases hxi : x = i
      · simp [hxi]
      · simp [hxi]

theorem commitGo_calls_ok (fails : Nat → Bool) (l : List Nat)
    (h : Nat → RecordData) (d : List Nat)
    (tr : List (Nat × List (String × Nat)))
    (hok : ∀ j ∈ l, fails j = false) (hnd : l.Nodup) :
    (commitGo fails l h d tr).calls =
      tr ++ l.map (fun j => (j, ownVals j (h j).toW)) := by
  induction l generalizing h d tr with
  | nil => simp [commitGo]
  | cons i rest ih =>
      rw [commitGo_cons, if_neg (by simp [hok i (List.mem_cons_self i rest)])]
      rw [ih _ _ _ (fun j hj => hok j (List.mem_cons_of_mem i hj))
        (List.Nodup.of_cons hnd)]
      have hmap : rest.map (fun j => (j, ownVals j ((setR h i (recCommit i (h i)).1) j).toW)) =
          rest.map (fun j => (j, ownVals j (h j).toW)) := by
        apply List.map_congr_left
        intro j hj
        have hji : j ≠ i := by
          intro hcon
          rw [hcon] at hj
          exact (List.nodup_cons.mp hnd).1 hj
        simp [setR, hji]
      rw [hmap, recCommit_calls]
      simp

theorem commitGo_heap_ok (fails : Nat → Bool) (l : List Nat)
    (h : Nat → RecordData) (d : List Nat)
    (tr : List (Nat × List (String × Nat)))
    (hok : ∀ j ∈ l, fails j = false) (hnd : l.Nodup) (i : Nat) :
    (commitGo fails l h d tr).heap i =
      if i ∈ l then (recCommit i (h i)).1 else h i := by
  induction l generalizing h d tr with
  | nil => simp [commitGo]
  | cons i0 rest ih =>
      rw [commitGo_cons, if_neg (by simp [hok i0 (List.mem_cons_self i0 rest)])]
      rw [ih _ _ _ (fun j hj => hok j (List.mem_cons_of_mem i0 hj))
        (List.Nodup.of_cons hnd)]
      by_cases hi : i = i0
      · subst hi
        have hni : ¬ i ∈ rest := (List.nodup_cons.mp hnd).1
        simp [hni, setR]
      · by_cases hir : i ∈ rest
        · simp [hir, setR, hi]
        · simp [hir, setR, hi, List.mem_cons]

theorem commitGo_append_ok (fails : Nat → Bool) (a b : List Nat)
    (h : Nat → RecordData) (d : List Nat)
    (tr : List (Nat × List (String × Nat)))
    (hok : ∀ j ∈ a, fails j = false) :
    commitGo fails (a ++ b) h d tr =
      commitGo fails b (commitGo fails a h d tr).heap
        (commitGo fails a h d tr).dirty (commitGo fails a h d tr).calls := by
  induction a generalizing h d tr with
  | nil => simp [commitGo]
  | cons i rest ih =>
      have hne : fails i = false := hok i (List.mem_cons_self i rest)
      have hstep : commitGo fails (i :: rest) h d tr =
          commitGo fails rest (setR h i (recCommit i (h i)).1)
            (d.filter (fun x => decide (x ≠ i)))
            (tr ++ [(i, (recCommit i (h i)).2)]) := by
        rw [commitGo_cons, if_neg (by simp [hne])]
      rw [List.cons_append, commitGo_cons, if_neg (by simp [hne]), hstep]
      exact ih _ _ _ (fun j hj => hok j (List.mem_cons_of_mem i hj))

theorem commitGo_frame (fails : Nat → Bool) (l : List Nat)
    (h : Nat → RecordData) (d : List Nat)
    (tr : List (Nat × List (String × Nat))) (r : Nat) (f : String) (j : Nat)
    (hj : j ≠ r) :
    lookup2 ((commitGo fails l h d tr).heap r).toW f j =
      lookup2 (h r).toW f j := by
  induction l generalizing h d tr with
  | nil => rfl
  | cons i rest ih =>
      rw [commitGo_cons]
      by_cases hf : fails i = true
      · rw [if_pos hf]
        by_cases hr : r = i
        · subst hr
          simp only [setR, if_pos rfl]
          exact commitFields_frame r (h r).vals (h r).toW f j hj
        · simp [setR, hr]
      · rw [if_neg hf]
        rw [ih _ _ _]
        by_cases hr : r = i
        · subst hr
          simp only [setR, if_pos rfl]
          exact commitFields_frame r (h r).vals (h r).toW f j hj
        · simp [setR, hr]

theorem commitGo_err_false_dirty (fails : Nat → Bool) (l : List Nat)
    (h : Nat → RecordData) (d : List Nat)
    (tr : List (Nat × List (String × Nat)))
    (herr : (commitGo fails l h d tr).err = false) :
    (commitGo fails l h d tr).dirty =
      d.filter (fun x => decide (¬ x ∈ l)) := by
  induction l generalizing h d tr with
  | nil => simp [commitGo]
  | cons i rest ih =>
      rw [commitGo_cons] at herr ⊢
      by_cases hf : fails i = true
      · rw [if_pos hf] at herr
        simp at herr
      · rw [if_neg hf] at herr ⊢
        rw [ih _ _ _ herr]
        rw [List.filter_filter]
        apply List.filter_congr
        intro x _
        by_cases hxi : x = i
        · simp [hxi]
        · simp [hxi]

theorem filter_map_eq_single {α β : Type} [DecidableEq α] (l : List α)
    (g : α → β) (i : α) (hnd : l.Nodup) (hi : i ∈ l) :
    (l.map (fun j => (j, g j))).filter (fun c => decide (c.1 = i)) =
      [(i, g i)] := by
  induction l with
  | nil => simp at hi
  | cons a t ih =>
      by_cases ha : a = i
      · subst ha
        have hni : ¬ a ∈ t := (List.nodup_cons.mp hnd).1
        simp only [List.map_cons, List.filter_cons, decide_eq_true_eq]
        rw [if_pos (by simp)]
        have hrest : (t.map (fun j => (j, g j))).filter
            (fun c => decide (c.1 = a)) = [] := by
          rw [List.filter_eq_nil_iff]
          intro c hc
          rcases List.mem_map.mp hc with ⟨j, hj, hjc⟩
          rw [← hjc]
          simp only [decide_eq_true_eq]
          intro hja
          rw [hja] at hj
          exact hni hj
        rw [hrest]
      · have hit : i ∈ t := by
          rcases List.mem_cons.mp hi with h1 | h1
          · exact absurd h1.symm ha
          · exact h1
        simp only [List.map_cons, List.filter_cons, decide_eq_true_eq]
        rw [if_neg (by simp [ha])]
        exact ih (List.Nodup.of_cons hnd) hit

/-! ### Reachable environment states

`ReachPub` closes the initial state (fresh `Environment.__init__`, empty
dirty set, arbitrary record heap) under the public operations the spec
names: field-write staging, `invalidate`, and `commit` with any
success/failure oracle.  `ReachOk` is the same but only admits `commit`
runs in which no remote write failed. -/

inductive ReachPub : Env → Prop where
  | oStart (h : Nat → RecordData) : ReachPub ⟨h, []⟩
  | oStage (e : Env) (i : Nat) (f : String) (v : Nat) :
      ReachPub e → ReachPub (stage e i f v)
  | oInval (e : Env) : ReachPub e → ReachPub (invalidate e).1
  | oCommit (e : Env) (fails : Nat → Bool) : ReachPub e →
      ReachPub ⟨(commit fails e).heap, (commit fails e).dirty⟩

inductive ReachOk : Env → Prop where
  | oStart (h : Nat → RecordData) : ReachOk ⟨h, []⟩
  | oStage (e : Env) (i : Nat) (f : String) (v : Nat) :
      ReachOk e → ReachOk (stage e i f v)
  | oInval (e : Env) : ReachOk e → ReachOk (invalidate e).1
  | oCommit (e : Env) (fails : Nat → Bool) : ReachOk e →
      (commit fails e).err = false →
      ReachOk ⟨(commit fails e).heap, (commit fails e).dirty⟩

/-! ### Concrete scenarios -/

/-- One record (id 1) whose authoritative cache holds field a = 10. -/
def h0 : Nat → RecordData := fun _ => ⟨[("a", [(1, 10)])], []⟩

/-- Stage a = 5 on record 1 from a fresh environment. -/
def e1 : Env := stage ⟨h0, []⟩ 1 "a" 5

/-- Commit while the remote write for every record fails. -/
def out1 : CommitOut := commit (fun _ => true) e1

/-- Record 1 cached a = 10, b = 20. -/
def hC4 : Nat → RecordData := fun _ => ⟨[("a", [(1, 10)]), ("b", [(1, 20)])], []⟩

/-- Stage a = 5 then b = 6 on record 1. -/
def eStaged : Env := stage (stage ⟨hC4, []⟩ 1 "a" 5) 1 "b" 6

/-- ... then `invalidate`. -/
def eInval : Env := (invalidate eStaged).1

/-- ... then stage a = 7 again (record 1 becomes dirty again). -/
def eRe : Env := stage eInval 1 "a" 7

/-- Three records staged (1.a = 5, 2.b = 6, 3.c = 7). -/
def e3 : Env := stage (stage (stage ⟨fun _ => ⟨[], []⟩, []⟩ 1 "a" 5) 2 "b" 6) 3 "c" 7

/-- Commit `e3` with the remote write failing exactly on record 2. -/
def out3 : CommitOut := commit (fun i => decide (i = 2)) e3

/-- Commit `e3` with every remote write succeeding. -/
def out3ok : CommitOut := commit (fun _ => false) e3

/-- Record 1's pending buffer also holds a staged value for id 2. -/
def eC10 : Env := ⟨fun _ => ⟨[], [("a", [(1, 5), (2, 8)])]⟩, [1]⟩

/-! ### Claims -/

/-- Claim C1, counterexample.  The claim says that if the remote write
fails during `commit()`, the record's authoritative cached values are
unchanged.  On the code this is false: `commit` invokes the
descriptor's `store` while accumulating the payload, BEFORE calling
`record.write` (env.py lines 122-131), so after staging a = 5 over a
cached a = 10 and committing with a failing write, the error propagates
yet the authoritative cache already reads a = 5. -/
theorem C1_counterexample :
    out1.err = true ∧
    lookup2 (e1.heap 1).vals "a" 1 = some 10 ∧
    lookup2 (out1.heap 1).vals "a" 1 = some 5 := by
  decide

/-- Claim C1 (amended): the record's authoritative cache (`_values`) is
updated only by the descriptor's `store`, which runs only inside
`commit()` — staging a value never mutates the cache — but `store` is
invoked BEFORE the remote write call: when the write for the first
dirty record fails, `commit` raises and that record's authoritative
cache already holds every staged value, so a reader sees the staged
values even though the write failed. -/
theorem C1_store_runs_before_write (e : Env) (i : Nat) (rest : List Nat)
    (fails : Nat → Bool) (hd : e.dirty = i :: rest) (hf : fails i = true)
    (hnd : ((e.heap i).toW.map Prod.fst).Nodup) :
    (∀ e2 i2 f2 v2 j, ((stage e2 i2 f2 v2).heap j).vals = (e2.heap j).vals) ∧
    (commit fails e).err = true ∧
    (∀ f v, (f, v) ∈ ownVals i (e.heap i).toW →
      lookup2 ((commit fails e).heap i).vals f i = some v) := by
  have hcommit : commit fails e = commitGo fails (i :: rest) e.heap (i :: rest) [] := by
    rw [show commit fails e = commitGo fails e.dirty e.heap e.dirty [] from rfl, hd]
  refine ⟨?_, ?_, ?_⟩
  · intro e2 i2 f2 v2 j
    by_cases hj : j = i2
    · simp [stage, setR, hj]
    · simp [stage, setR, hj]
  · rw [hcommit, commitGo_cons, if_pos hf]
  · intro f v hmem
    rw [hcommit, commitGo_cons, if_pos hf]
    simp only [setR, if_true, eq_self_iff_true]
    rw [show (recCommit i (e.heap i)).1.vals =
      (commitFields i (e.heap i).vals (e.heap i).toW).1 from rfl]
    rw [commitFields_vals]
    exact lookup2_storeFold_mem i _ _ f v
      (List.Nodup.sublist (ownVals_keys_sublist i (e.heap i).toW) hnd) hmem

theorem C1_store_runs_before_write_witness :
    out1.err = true ∧ lookup2 (out1.heap 1).vals "a" 1 = some 5 :=
  ⟨(C1_store_runs_before_write e1 1 [] (fun _ => true)
      (by decide) rfl (by decide)).2.1,
   (C1_store_runs_before_write e1 1 [] (fun _ => true)
      (by decide) rfl (by decide)).2.2 "a" 5 (by decide)⟩

/-- Claim C2: for every record in the dirty set with staged fields under
its own id, a successful `commit()` pops all of them, issues exactly one
remote write call for that record carrying all of them in a single
mapping (`ownVals i (e.heap i).toW` is exactly the list of own-id staged
field/value pairs in buffer order), and removes the record from the
dirty set — so N field assignments on one record cost one write RPC. -/
theorem C2_one_write_per_record (e : Env) (fails : Nat → Bool) (i : Nat)
    (hnd : e.dirty.Nodup) (hok : ∀ j ∈ e.dirty, fails j = false)
    (hi : i ∈ e.dirty) :
    (commit fails e).calls.filter (fun c => decide (c.1 = i)) =
      [(i, ownVals i (e.heap i).toW)] ∧
    ¬ i ∈ (commit fails e).dirty ∧
    (∀ f, lookup2 ((commit fails e).heap i).toW f i = none) := by
  refine ⟨?_, ?_, ?_⟩
  · rw [show (commit fails e).calls =
      (commitGo fails e.dirty e.heap e.dirty []).calls from rfl]
    rw [commitGo_calls_ok fails e.dirty e.heap e.dirty [] hok hnd]
    rw [List.nil_append]
    exact filter_map_eq_single e.dirty (fun j => ownVals j (e.heap j).toW) i hnd hi
  · rw [show (commit fails e).dirty =
      (commitGo fails e.dirty e.heap e.dirty []).dirty from rfl]
    rw [commitGo_dirty_ok fails e.dirty e.heap e.dirty [] hok]
    intro hmem
    have := (List.mem_filter.mp hmem).2
    simp at this
    exact this (List.mem_filter.mp hmem).1
  · intro f
    rw [show (commit fails e).heap =
      (commitGo fails e.dirty e.heap e.dirty []).heap from rfl]
    rw [commitGo_heap_ok fails e.dirty e.heap e.dirty [] hok hnd i, if_pos hi]
    exact commitFields_pops i (e.heap i).vals (e.heap i).toW f

theorem C2_one_write_per_record_witness :
    out3ok.calls.filter (fun c => decide (c.1 = 1)) =
      [(1, ownVals 1 (e3.heap 1).toW)] ∧
    ¬ 1 ∈ out3ok.dirty ∧
    lookup2 (out3ok.heap 1).toW "a" 1 = none :=
  ⟨(C2_one_write_per_record e3 (fun _ => false) 1
      (by decide) (fun j _ => rfl) (by decide)).1,
   (C2_one_write_per_record e3 (fun _ => false) 1
      (by decide) (fun j _ => rfl) (by decide)).2.1,
   (C2_one_write_per_record e3 (fun _ => false) 1
      (by decide) (fun j _ => rfl) (by decide)).2.2 "a"⟩

/-- Claim C3: when the dirty set is iterated as `l1 ++ i :: l2` and the
remote write fails exactly at record `i` (the writes for `l1`
succeeding), `commit()` propagates the failure, the records of `l1` are
written (their calls are in the trace) and removed from the dirty set,
the failing record `i` is not removed, and the untouched records of
`l2` stay dirty with their record state — staged values included —
intact, so a re-invocation of `commit()` operates exactly on
`i :: l2`. -/
theorem C3_partial_commit (e : Env) (fails : Nat → Bool) (l1 : List Nat)
    (i : Nat) (l2 : List Nat) (hd : e.dirty = l1 ++ i :: l2)
    (hnd : e.dirty.Nodup) (hok : ∀ j ∈ l1, fails j = false)
    (hf : fails i = true) :
    (commit fails e).err = true ∧
    (commit fails e).dirty = i :: l2 ∧
    (commit fails e).calls =
      l1.map (fun j => (j, ownVals j (e.heap j).toW)) ++
        [(i, ownVals i (e.heap i).toW)] ∧
    (∀ j ∈ l2, (commit fails e).heap j = e.heap j) := by
  rw [hd] at hnd
  have hsplit := List.nodup_append.mp hnd
  have hdisj : ∀ a ∈ i :: l2, ¬ a ∈ l1 := by
    intro a ha hcon
    exact hsplit.2.2 hcon ha
  have hil1 : ¬ i ∈ l1 := hdisj i (List.mem_cons_self i l2)
  have hcommit : commit fails e =
      commitGo fails (l1 ++ i :: l2) e.heap (l1 ++ i :: l2) [] := by
    rw [show commit fails e = commitGo fails e.dirty e.heap e.dirty [] from rfl, hd]
  have hpre := commitGo_append_ok fails l1 (i :: l2) e.heap (l1 ++ i :: l2) [] hok
  have hdirty1 : (commitGo fails l1 e.heap (l1 ++ i :: l2) []).dirty = i :: l2 := by
    rw [commitGo_dirty_ok fails l1 e.heap _ [] hok, List.filter_append]
    rw [List.filter_eq_nil_iff.mpr (by intro a ha; simp [ha])]
    rw [List.filter_eq_self.mpr (by intro a ha; simpa using hdisj a ha)]
    simp
  have hheap1 : ∀ j, ¬ j ∈ l1 →
      (commitGo fails l1 e.heap (l1 ++ i :: l2) []).heap j = e.heap j := by
    intro j hj
    rw [commitGo_heap_ok fails l1 e.heap _ [] hok hsplit.1 j, if_neg hj]
  have hcalls1 : (commitGo fails l1 e.heap (l1 ++ i :: l2) []).calls =
      l1.map (fun j => (j, ownVals j (e.heap j).toW)) := by
    rw [commitGo_calls_ok fails l1 e.heap _ [] hok hsplit.1, List.nil_append]
  rw [hcommit, hpre, commitGo_cons, if_pos hf]
  refine ⟨rfl, ?_, ?_, ?_⟩
  · exact hdirty1
  · rw [hcalls1, hheap1 i hil1, recCommit_calls]
  · intro j hj
    have hji : j ≠ i := by
      intro hcon
      rw [hcon] at hj
      exact (List.nodup_cons.mp hsplit.2.1).1 hj
    simp only [setR, if_neg hji]
    exact hheap1 j (hdisj j (List.mem_cons_of_mem i hj))

theorem C3_partial_commit_witness :
    out3.err = true ∧
    out3.dirty = [2, 3] ∧
    out3.calls = [1].map (fun j => (j, ownVals j (e3.heap j).toW)) ++
      [(2, ownVals 2 (e3.heap 2).toW)] ∧
    out3.heap 3 = e3.heap 3 :=
  ⟨(C3_partial_commit e3 (fun i => decide (i = 2)) [1] 2 [3]
      (by decide) (by decide) (by decide) (by decide)).1,
   (C3_partial_commit e3 (fun i => decide (i = 2)) [1] 2 [3]
      (by decide) (by decide) (by decide) (by decide)).2.1,
   (C3_partial_commit e3 (fun i => decide (i = 2)) [1] 2 [3]
      (by decide) (by decide) (by decide) (by decide)).2.2.1,
   (C3_partial_commit e3 (fun i => decide (i = 2)) [1] 2 [3]
      (by decide) (by decide) (by decide) (by decide)).2.2.2 3
     (by decide)⟩

/-- Claim C4, counterexample.  The claim says `invalidate()` discards
all staged-but-uncommitted values.  On the code it only runs
`self.dirty.clear()` (env.py line 136): after staging a = 5 and b = 6
and invalidating, the dirty set is empty but b = 6 is still sitting in
the record's `_values_to_write` buffer — and when field a is staged
again and committed, the supposedly discarded b = 6 is written too. -/
theorem C4_counterexample :
    eInval.dirty = [] ∧
    lookup2 (eInval.heap 1).toW "b" 1 = some 6 ∧
    (commit (fun _ => false) eRe).calls = [(1, [("a", 7), ("b", 6)])] := by
  decide

/-- Claim C4 (amended): `invalidate()` empties the dirty set, issues
zero remote write calls, and leaves every record object — the
authoritative cached values AND the pending-writes buffer — exactly as
it was.  Staged values are therefore not discarded but orphaned: they
no longer get committed only because the record left the dirty set, and
they resurface if the record is staged again before the next commit. -/
theorem C4_invalidate_only_clears_dirty (e : Env) :
    (invalidate e).1.dirty = [] ∧
    (invalidate e).2 = [] ∧
    (∀ j, (invalidate e).1.heap j = e.heap j) := by
  exact ⟨rfl, rfl, fun j => rfl⟩

/-- Claim C5, counterexample.  The claim says that in every state
reachable through the public operations — explicitly including a commit
whose remote write fails — every record in the dirty set has at least
one pending staged value.  False: stage a = 5 on record 1, then commit
with the remote write failing; `commit` pops the staged values (and
stores them) before `record.write`, and the raise skips
`self.dirty.remove(record)`, leaving record 1 dirty with an empty
pending buffer. -/
theorem C5_counterexample :
    ReachPub ⟨out1.heap, out1.dirty⟩ ∧
    out1.dirty = [1] ∧
    ownVals 1 (out1.heap 1).toW = [] := by
  refine ⟨?_, by decide, by decide⟩
  exact ReachPub.oCommit e1 (fun _ => true)
    (ReachPub.oStage ⟨h0, []⟩ 1 "a" 5 (ReachPub.oStart h0))

/-- Claim C5 (amended): in every state reachable through staging,
`invalidate`, and commits whose remote writes all succeed, every record
in the dirty set has at least one staged value pending under its own id
(a commit with a failing write can break this: see the
counterexample). -/
theorem C5_dirty_implies_pending (e : Env) (hr : ReachOk e) :
    ∀ i ∈ e.dirty, ownVals i (e.heap i).toW ≠ [] := by
  induction hr with
  | oStart h => simp
  | oStage e i f v hr ih =>
      intro j hj
      simp only [stage] at hj ⊢
      by_cases hji : j = i
      · subst hji
        simp only [setR, if_pos rfl]
        exact ownVals_ne_nil j _ f _ v
          (alookup_mem _ _ _ (alookup_aset_self _ _ _))
          (alookup_aset_self _ _ _)
      · simp only [setR, if_neg hji]
        apply ih
        by_cases hid : i ∈ e.dirty
        · rw [if_pos hid] at hj
          exact hj
        · rw [if_neg hid] at hj
          rcases List.mem_append.mp hj with h1 | h1
          · exact h1
          · simp at h1
            exact absurd h1 hji
  | oInval e hr ih =>
      intro j hj
      simp [invalidate] at hj
  | oCommit e fails hr herr ih =>
      intro j hj
      exfalso
      have hdempty := commitGo_err_false_dirty fails e.dirty e.heap e.dirty [] herr
      rw [show (commit fails e).dirty =
        (commitGo fails e.dirty e.heap e.dirty []).dirty from rfl, hdempty] at hj
      have hmem := List.mem_filter.mp hj
      simp only [decide_eq_true_eq] at hmem
      exact hmem.2 hmem.1

theorem C5_dirty_implies_pending_witness :
    ownVals 1 ((stage (⟨h0, []⟩ : Env) 1 "a" 5).heap 1).toW ≠ [] :=
  C5_dirty_implies_pending (stage ⟨h0, []⟩ 1 "a" 5)
    (ReachOk.oStage ⟨h0, []⟩ 1 "a" 5 (ReachOk.oStart h0)) 1 (by decide)

/-- Claim C10: during `commit()` (whatever the remote writes do), for
every record `r`, every field and every id `j` other than `r`'s own id,
the staged entry keyed by `j` in that field's inner mapping of `r`'s
pending-writes buffer is left exactly in place: `commit` pops only the
entries keyed by the record's own id (env.py lines 123-124). -/
theorem C10_other_ids_untouched (e : Env) (fails : Nat → Bool) (r : Nat)
    (f : String) (j : Nat) (hj : j ≠ r) :
    lookup2 ((commit fails e).heap r).toW f j = lookup2 (e.heap r).toW f j :=
  commitGo_frame fails e.dirty e.heap e.dirty [] r f j hj

theorem C10_other_ids_untouched_witness :
    lookup2 ((commit (fun _ => false) eC10).heap 1).toW "a" 2 =
      lookup2 (eC10.heap 1).toW "a" 2 :=
  C10_other_ids_untouched eC10 (fun _ => false) 1 "a" 2 (by decide)

/-! ### Model registry: `__getitem__` and `_create_model_class` -/

/-- Reserved field names excluded from generated descriptors
(env.py line 29). -/
def FIELDS_RESERVED : List String :=
  ["id", "ids", "__odoo__", "__osv__", "__data__", "env"]

/-- Wire-level schema payload of one field as returned by `fields_get`:
a `type`, and optionally a label, a readonly flag and a relation. -/
structure FieldData where
  ftype : String
  label : String
  readonly : Bool
  relation : Option String
  deriving DecidableEq

/-- A generated local field descriptor. -/
structure FieldDesc where
  fname : String
  ftype : String
  label : String
  readonly : Bool
  relation : Option String
  deriving DecidableEq

/-- Modelled from the spec: `fields.generate_field` lives in
`odoorpc/service/fields.py`, which is not among the sources under
study; per the spec it is a pure, deterministic factory turning a field
name and its wire schema into a field descriptor. -/
def generate_field (fname : String) (fd : FieldData) : FieldDesc :=
  ⟨fname, fd.ftype, fd.label, fd.readonly, fd.relation⟩

/-- The synthesized model proxy: `_name`, the generated type name
(dots replaced by underscores, env.py line 244), `_columns`, and an
allocation token standing for the Python object identity of the type
created by `type(cls_name, (Model,), attrs)`. -/
structure ModelCls where
  name : String
  clsName : String
  columns : List (String × FieldDesc)
  tok : Nat
  deriving DecidableEq

/-- `Environment._create_model_class` (env.py lines 239-269): filter
reserved names, run each remaining field through the descriptor
factory, and inject a synthetic read-only text field named `name` when
the schema lacks one. -/
def createModelCls (model : String) (fs : List (String × FieldData))
    (tok : Nat) : ModelCls :=
  let cols := fs.foldl
    (fun acc p =>
      if p.1 ∈ FIELDS_RESERVED then acc
      else acc ++ [(p.1, generate_field p.1 p.2)]) []
  let cols2 :=
    if cols.any (fun c => decide (c.1 = "name")) then cols
    else cols ++ [("name", generate_field "name" ⟨"text", "Name", true, none⟩)]
  ⟨model, model.map (fun c => if c = '.' then '_' else c), cols2, tok⟩

/-- Registry state of an Environment: the `_registry` dict plus an
allocation counter supplying identity tokens for synthesized proxy
types. -/
structure REnv where
  registry : List (String × ModelCls)
  nextTok : Nat
  deriving DecidableEq

/-- `Environment.__getitem__` (env.py lines 215-227): on a registry
miss run `_create_model_class`, whose `fields_get` RPC outcome is given
by the oracle `fg`; a raise inside it propagates before the registry
assignment, leaving the registry untouched.  Returns the environment
and, on success, the model proxy plus the number of `fields_get` calls
performed by this lookup. -/
def getItem (fg : String → Except String (List (String × FieldData)))
    (e : REnv) (model : String) : REnv × Except String (ModelCls × Nat) :=
  match alookup e.registry model with
  | some cls => (e, Except.ok (cls, 0))
  | none =>
      match fg model with
      | Except.error er => (e, Except.error er)
      | Except.ok fs =>
          let cls := createModelCls model fs e.nextTok
          ({ registry := e.registry ++ [(model, cls)],
             nextTok := e.nextTok + 1 },
           Except.ok (cls, 1))

/-- A concrete schema oracle for witnesses. -/
def fgDemo : String → Except String (List (String × FieldData)) :=
  fun _ => Except.ok
    [("partner_id", ⟨"many2one", "Partner", false, some "res.partner"⟩),
     ("id", ⟨"integer", "ID", true, none⟩)]

/-- Claim C6: looking a model up twice through the same Environment
returns the identical proxy object both times — the second lookup
returns the registry entry created by the first, same identity token —
and exactly one `fields_get` round trip happens across the two lookups
(one on the first, zero on the second). -/
theorem C6_lookup_memoized
    (fg : String → Except String (List (String × FieldData)))
    (e : REnv) (M : String) (fs : List (String × FieldData))
    (h1 : alookup e.registry M = none) (h2 : fg M = Except.ok fs) :
    (getItem fg e M).2 = Except.ok (createModelCls M fs e.nextTok, 1) ∧
    getItem fg (getItem fg e M).1 M =
      ((getItem fg e M).1,
       Except.ok (createModelCls M fs e.nextTok, 0)) := by
  have hfirst : getItem fg e M =
      ({ registry := e.registry ++ [(M, createModelCls M fs e.nextTok)],
         nextTok := e.nextTok + 1 },
       Except.ok (createModelCls M fs e.nextTok, 1)) := by
    unfold getItem
    rw [h1, h2]
  have hsecond : alookup (e.registry ++ [(M, createModelCls M fs e.nextTok)]) M =
      some (createModelCls M fs e.nextTok) := by
    rw [alookup_append_none _ _ _ h1]
    simp [alookup]
  refine ⟨by rw [hfirst], ?_⟩
  rw [hfirst]
  unfold getItem
  rw [hsecond]

theorem C6_lookup_memoized_witness :
    (getItem fgDemo ⟨[], 0⟩ "res.partner").2 =
      Except.ok (createModelCls "res.partner"
        [("partner_id", ⟨"many2one", "Partner", false, some "res.partner"⟩),
         ("id", ⟨"integer", "ID", true, none⟩)] 0, 1) ∧
    getItem fgDemo (getItem fgDemo ⟨[], 0⟩ "res.partner").1 "res.partner" =
      ((getItem fgDemo ⟨[], 0⟩ "res.partner").1,
       Except.ok (createModelCls "res.partner"
        [("partner_id", ⟨"many2one", "Partner", false, some "res.partner"⟩),
         ("id", ⟨"integer", "ID", true, none⟩)] 0, 0)) :=
  C6_lookup_memoized fgDemo ⟨[], 0⟩ "res.partner" _ (by decide) rfl

/-- Claim C7: when the model is not cached and the `fields_get` call
raises, the error propagates out of `environment[M]` and the registry
is left without any entry for the model — nothing is partially
populated. -/
theorem C7_failed_schema_call_caches_nothing
    (fg : String → Except String (List (String × FieldData)))
    (e : REnv) (M : String) (er : String)
    (h1 : alookup e.registry M = none) (h2 : fg M = Except.error er) :
    getItem fg e M = (e, Except.error er) ∧
    alookup (getItem fg e M).1.registry M = none := by
  have hfirst : getItem fg e M = (e, Except.error er) := by
    unfold getItem
    rw [h1, h2]
  exact ⟨hfirst, by rw [hfirst]; exact h1⟩

theorem C7_failed_schema_call_caches_nothing_witness :
    getItem (fun _ => Except.error "RPCError") ⟨[], 0⟩ "res.partner" =
      (⟨[], 0⟩, Except.error "RPCError") ∧
    alookup (getItem (fun _ => Except.error "RPCError")
      ⟨[], 0⟩ "res.partner").1.registry "res.partner" = none :=
  C7_failed_schema_call_caches_nothing (fun _ => Except.error "RPCError")
    ⟨[], 0⟩ "res.partner" "RPCError" (by decide) rfl

/-! ### Derived environments: `__call__` aliasing -/

/-- Heap of `_registry` and `_dirty` objects: Python references
modelled as indices into total stores, with allocation counters. -/
structure Store where
  registries : Nat → List (String × ModelCls)
  dirties : Nat → List Nat
  nextReg : Nat
  nextDirty : Nat

/-- A Python `Environment` object: identity data plus references to
its `_registry` and `_dirty` objects. -/
structure PEnv where
  db : String
  uid : Nat
  ctx : List (String × String)
  registryRef : Nat
  dirtyRef : Nat
  deriving DecidableEq

/-- `Environment.__init__` (env.py lines 43-49): fresh, empty
`_registry` and `_dirty` objects are allocated. -/
def envInit (st : Store) (db : String) (uid : Nat)
    (ctx : List (String × String)) : Store × PEnv :=
  ({ registries := fun r =>
       if r = st.nextReg then [] else st.registries r,
     dirties := fun r =>
       if r = st.nextDirty then [] else st.dirties r,
     nextReg := st.nextReg + 1, nextDirty := st.nextDirty + 1 },
   ⟨db, uid, ctx, st.nextReg, st.nextDirty⟩)

/-- `Environment.__call__` (env.py lines 229-237): build a new
Environment with `self`'s odoo, db and uid and the given context
(defaulting to `self`'s), then alias its `_dirty` and `_registry`
references to `self`'s. -/
def envCall (st : Store) (e : PEnv)
    (ctxArg : Option (List (String × String))) : Store × PEnv :=
  let c := match ctxArg with
    | none => e.ctx
    | some c => c
  let out := envInit st e.db e.uid c
  (out.1, { out.2 with registryRef := e.registryRef,
                       dirtyRef := e.dirtyRef })

/-- Modelled from the spec: staging a field mutation through an
environment adds the record to the dirty-set object that environment
references (the staging code lives in `odoorpc/service/model.py`, not
among the sources under study). -/
def stageDirty (st : Store) (e : PEnv) (i : Nat) : Store :=
  { st with dirties := fun r =>
      if r = e.dirtyRef
      then (if i ∈ st.dirties e.dirtyRef then st.dirties e.dirtyRef
            else st.dirties e.dirtyRef ++ [i])
      else st.dirties r }

/-- Dirty-set membership as seen through an environment. -/
def isDirty (st : Store) (e : PEnv) (i : Nat) : Prop :=
  i ∈ st.dirties e.dirtyRef

theorem mem_addIfAbsent (l : List Nat) (i : Nat) :
    i ∈ (if i ∈ l then l else l ++ [i]) := by
  by_cases h : i ∈ l
  · rw [if_pos h]
    exact h
  · rw [if_neg h]
    simp

/-- Claim C8: `environment(c)` returns a derived Environment whose
registry and dirty-set references are the very same objects as the
original's (not copies), whose context is `c`, and whose db and uid are
carried over; staging a record through either environment makes it
dirty as seen through the other. -/
theorem C8_derived_env_shares_state (st : Store) (e : PEnv)
    (c : List (String × String)) (st2 : Store) (i : Nat) :
    (envCall st e (some c)).2.registryRef = e.registryRef ∧
    (envCall st e (some c)).2.dirtyRef = e.dirtyRef ∧
    (envCall st e (some c)).2.ctx = c ∧
    (envCall st e (some c)).2.db = e.db ∧
    (envCall st e (some c)).2.uid = e.uid ∧
    isDirty (stageDirty st2 (envCall st e (some c)).2 i) e i ∧
    isDirty (stageDirty st2 e i) (envCall st e (some c)).2 i := by
  refine ⟨rfl, rfl, rfl, rfl, rfl, ?_, ?_⟩
  · show i ∈ _
    simp only [stageDirty, envCall, envInit, isDirty, if_true,
      eq_self_iff_true]
    exact mem_addIfAbsent _ i
  · show i ∈ _
    simp only [stageDirty, envCall, envInit, isDirty, if_true,
      eq_self_iff_true]
    exact mem_addIfAbsent _ i

/-! ### Report service: `Report.download` response handling -/

/-- The 6-bit value of a standard-alphabet base64 character. -/
def b64val (c : Char) : Option Nat :=
  if 65 ≤ c.toNat ∧ c.toNat ≤ 90 then some (c.toNat - 65)
  else if 97 ≤ c.toNat ∧ c.toNat ≤ 122 then some (c.toNat - 97 + 26)
  else if 48 ≤ c.toNat ∧ c.toNat ≤ 57 then some (c.toNat - 48 + 52)
  else if c = '+' then some 62
  else if c = '/' then some 63
  else none

/-- Characters `base64.standard_b64decode` keeps: alphabet members and
the padding character; all others are discarded before decoding. -/
def b64keep (c : Char) : Bool :=
  (b64val c).isSome || decide (c = '=')

/-- Decode kept base64 characters four at a time, padding accepted only
at the very end; `none` models `binascii.Error`. -/
def b64chunks : List Char → Option (List Nat)
  | [] => some []
  | c1 :: c2 :: c3 :: c4 :: rest =>
      match b64val c1, b64val c2 with
      | some v1, some v2 =>
          if c3 = '=' then
            if c4 = '=' ∧ rest = [] then some [v1 * 4 + v2 / 16] else none
          else
            match b64val c3 with
            | some v3 =>
                if c4 = '=' then
                  if rest = [] then
                    some [v1 * 4 + v2 / 16, v2 % 16 * 16 + v3 / 4]
                  else none
                else
                  match b64val c4 with
                  | some v4 =>
                      match b64chunks rest with
                      | some t => some ((v1 * 4 + v2 / 16) ::
                          (v2 % 16 * 16 + v3 / 4) :: (v3 % 4 * 64 + v4) :: t)
                      | none => none
                  | none => none
            | none => none
      | _, _ => none
  | _ => none

/-- `base64.standard_b64decode` on a string: discard foreign
characters, then decode into byte values. -/
def standard_b64decode (s : String) : Option (List Nat) :=
  b64chunks (s.toList.filter b64keep)

/-- The payload under the outer `result` key of a render response; its
own `result` key may be absent. -/
structure RenderInner where
  result : Option String
  deriving DecidableEq

/-- A JSON-RPC render response: the outer `result` key may be absent. -/
structure RenderData where
  result : Option RenderInner
  deriving DecidableEq

/-- Python exceptions `Report.download` raises while handling the
response. -/
inductive PyErr where
  | keyError : String → PyErr
  | valueError : String → PyErr
  | binasciiError : PyErr
  deriving DecidableEq

/-- `Report.download` (report.py lines 81-97) after the `render_report`
call returned `data`.  The guard on line 91 reads
`if 'result' not in data and not data['result'].get('result')`: when
the outer key is absent the first conjunct is true and evaluating
`data['result']` in the second conjunct raises `KeyError` — the
`raise ValueError` on line 92 is unreachable; when the outer key is
present the conjunction short-circuits to false, and line 95
subscripts `data['result']['result']`, raising `KeyError` when the
inner key is absent and otherwise base64-decoding the payload into the
returned byte stream. -/
def download (data : RenderData) : Except PyErr (List Nat) :=
  match data.result with
  | none => Except.error (PyErr.keyError "result")
  | some inner =>
      match inner.result with
      | none => Except.error (PyErr.keyError "result")
      | some s =>
          match standard_b64decode s with
          | some content => Except.ok content
          | none => Except.error PyErr.binasciiError

/-- Claim C9: the claim (and the function's own docstring) says a
response lacking a usable `result` payload raises `ValueError`.  On the
code the guard's `and` (line 91) should be `or`: a response without the
outer `result` key raises `KeyError` while evaluating `data['result']`
inside the guard, a response whose payload lacks the inner `result` key
raises `KeyError` on line 95, and no input at all can reach the
`raise ValueError` — while the positive half of the claim holds: a
present payload is returned base64-decoded. -/
theorem C9_valueerror_unreachable :
    download ⟨none⟩ = Except.error (PyErr.keyError "result") ∧
    download ⟨some ⟨none⟩⟩ = Except.error (PyErr.keyError "result") ∧
    (∀ data msg, download data ≠ Except.error (PyErr.valueError msg)) ∧
    download ⟨some ⟨some "QQ=="⟩⟩ = Except.ok [65] := by
  refine ⟨rfl, rfl, ?_, by rfl⟩
  intro data msg
  match data with
  | ⟨none⟩ => simp [download]
  | ⟨some ⟨none⟩⟩ => simp [download]
  | ⟨some ⟨some s⟩⟩ =>
      simp only [download]
      cases standard_b64decode s <;> simp

end Odoorpc
